import Mathlib

/-!
Shallow embedding of the paperbot lookup-and-ranking engine.

The repository is a Slack bot answering queries about a catalog of C++
standardization papers.  The core operations embedded here are:

* the catalog of paper records (a JSON object, embedded as an association
  list from identifier strings to records);
* revision resolution (`findLatestRevision`), which probes `R0, R1, …`
  against the catalog;
* identifier lookup (`findPaper`) with uppercase normalization, and the
  older variant of the same lookup found in the unnamed source file
  (`lookupPart0`), which resolves only `P`-prefixed identifiers and has
  no fallback to the bare identifier;
* the date comparator `latestFirst` and the date-descending ordering of
  search results;
* the search pipeline: index-layer matching (with or without a result
  cap), sorting, truncation to 30 and the 15/15 tier split;
* the identifier pattern matcher (`matchPaper`,
  `matchPaperInSquareBrackets`), a hand compilation of the regular
  expression `(N\d{4}|[PD]\d{4}(R\d)?|(CWG|EWG|LWG|LEWG|FS)\d{1,3})`
  with the `i` flag, including the greedy/backtracking behaviour of the
  optional revision suffix and of `\d{1,3}`.
-/

set_option maxHeartbeats 1000000

namespace Paperbot

/-- Uppercase a string character-wise.  Embeds the JavaScript
`String.prototype.toUpperCase` call on identifiers (which are ASCII);
`Char.toUpper` is exactly the ASCII upper-casing map. -/
def jsToUpper (s : String) : String := ⟨s.data.map Char.toUpper⟩

/-- Lowercase a string character-wise (JS `toLowerCase` on ASCII data). -/
def jsToLower (s : String) : String := ⟨s.data.map Char.toLower⟩

/-- Prefix test on strings; embeds JS `String.prototype.startsWith`. -/
def jsStartsWith (s pre : String) : Bool := pre.data.isPrefixOf s.data

/-- A paper record, as consumed from the catalog snapshot `index.json`.
Optional fields embed JS fields that may be `undefined`. -/
structure Paper where
  title : String
  link : String
  author : Option String := none
  date : Option String := none
  subgroup : Option String := none
  issues : Option (List String) := none
  github_url : Option String := none
  type : Option String := none
deriving DecidableEq

/-- The catalog (`paperData` in the source): a JSON object mapping
identifier strings to paper records, embedded as an association list. -/
abbrev Catalog := List (String × Paper)

/-- Key-presence test: embeds `paperData[k] !== undefined`. -/
def hasKey (paperData : Catalog) (k : String) : Bool :=
  (List.lookup k paperData).isSome

/-- The revision key `` `${paperId}R${revision}` `` built by
`findLatestRevision` (src/index.js:61). -/
def revKey (paperId : String) (revision : Nat) : String :=
  paperId ++ "R" ++ Nat.repr revision

/-- Loop body of `findLatestRevision` (src/index.js:60-68).  The JS `for`
loop increments `revision` until `paperData[revPaperId]` is undefined; it
terminates because the catalog is finite, which the embedding expresses
with a fuel argument (instantiated below with more fuel than the catalog
has keys, which is always sufficient since the probed keys are pairwise
distinct).  A return value `some r` means the loop ran with
`revisionFound = true` and final `latestRevision = r`; `none` means the
loop broke immediately at this revision. -/
def findLatestRevisionAux (paperData : Catalog) (paperId : String) :
    Nat → Nat → Option Nat
  | 0, _ => none
  | fuel + 1, revision =>
    if hasKey paperData (revKey paperId revision) then
      some ((findLatestRevisionAux paperData paperId fuel (revision + 1)).getD revision)
    else none

/-- Embeds `findLatestRevision` (src/index.js:57-74, identical copy at
src/unnamed/part_000:25-42): probe `R0, R1, …` in increasing order, return
the highest contiguous revision key found, or `none` (JS `undefined`) if
`R0` itself is absent. -/
def findLatestRevision (paperData : Catalog) (paperId : String) : Option String :=
  (findLatestRevisionAux paperData paperId (paperData.length + 1) 0).map (revKey paperId)

/-- Embeds JS `Array.prototype.join(sep)`. -/
def joinSep (sep : String) : List String → String
  | [] => ""
  | [x] => x
  | x :: xs => x ++ sep ++ joinSep sep xs

/-- Embeds `makePaperMessage` (src/index.js:76-87, same code at
src/unnamed/part_000:12-23): render a catalog record into the Slack
message markup.  The source reads `paperData[paperId]` unconditionally
and is only called on present keys; the embedding returns `""` on an
absent key. -/
def makePaperMessage (paperData : Catalog) (paperId : String) : String :=
  match List.lookup paperId paperData with
  | none => ""
  | some paper =>
    let subgroup :=
      match paper.subgroup with
      | none => ""
      | some sg => if sg = "" then "" else " [" ++ sg ++ "]"
    let author :=
      match paper.author with
      | none => ""
      | some a => " (by " ++ a ++ ")"
    let date :=
      match paper.date with
      | none => ""
      | some d => " (" ++ d ++ ")"
    let issues :=
      match paper.issues with
      | none => []
      | some is => is.map (fun issue =>
          "<https://wg21.link/" ++ jsToLower issue ++ "|" ++ issue ++ ">")
    let issues :=
      match paper.github_url with
      | none => issues
      | some u => issues ++ ["<" ++ u ++ "|GitHub issue>"]
    let allIssues :=
      if issues.length = 0 then "" else " (Related: " ++ joinSep ", " issues ++ ")"
    "<" ++ paper.link ++ "|" ++ paperId ++ ":" ++ subgroup ++ " " ++ paper.title ++
      ">" ++ author ++ date ++ allIssues

/-- The identifier rewrite performed by `findPaper` (src/index.js:46-48)
after uppercasing: a five-character `P`/`D` identifier is replaced by its
latest revision when one exists, falling back to the identifier as typed
(the JS `findLatestRevision(paperId) || paperId`). -/
def resolveId (paperData : Catalog) (paperId : String) : String :=
  if (jsStartsWith paperId "P" || jsStartsWith paperId "D") && paperId.length == 5 then
    (findLatestRevision paperData paperId).getD paperId
  else paperId

/-- Embeds `findPaper` (src/index.js:44-55): uppercase, resolve the latest
revision of a bare 5-character `P`/`D` identifier (falling back to the
identifier itself), then look the key up, answering with the not-found
sentinel when it is absent. -/
def findPaper (paperData : Catalog) (paperId : String) : String :=
  let pid := resolveId paperData (jsToUpper paperId)
  if hasKey paperData pid then makePaperMessage paperData pid
  else "Sorry, I could not find that paper."

/-- Embeds the bracketed-identifier lookup of the `app_mention` handler in
src/unnamed/part_000:94-113: no uppercasing, revision resolution applied
only to 5-character identifiers starting with `P` (not `D`), and *no*
fallback to the identifier as typed — when resolution finds no `R0` the
identifier becomes `undefined` and the not-found sentinel is returned. -/
def lookupPart0 (paperData : Catalog) (paperId0 : String) : String :=
  let resolved :=
    if jsStartsWith paperId0 "P" && paperId0.length == 5 then
      findLatestRevision paperData paperId0
    else some paperId0
  match resolved with
  | none => "Sorry, I could not find that paper."
  | some pid =>
    if hasKey paperData pid then makePaperMessage paperData pid
    else "Sorry, I could not find that paper."

/-- A search document (`adjustedPaperData` element, src/index.js:7-15):
the concatenated searchable blob, the identifier, the optional `type`
tag, and the optional date.  The source keeps the date as a
`YYYY-MM-DD` string and `latestFirst` re-parses it with
`split('-')`/`parseInt` on every comparison; the embedding carries the
parsed `(year, month, day)` triple, which on the well-formed dates of
the catalog snapshot (spec section 3) is exactly what those calls
produce. -/
structure Entry where
  data : String
  paperId : String
  type : Option String := none
  date : Option (Nat × Nat × Nat) := none
deriving DecidableEq

/-- Embeds the comparator `latestFirst` (src/index.js:34-42): an entry
with a missing date sorts after anything; otherwise compare year, month,
day, each descending.  The comparator only ever returns `-1` or `1`. -/
def latestFirst (x y : Entry) : Int :=
  match x.date with
  | none => 1
  | some (xyear, xmonth, xday) =>
    match y.date with
    | none => -1
    | some (yyear, ymonth, yday) =>
      if xyear ≠ yyear then (if yyear < xyear then -1 else 1)
      else if xmonth ≠ ymonth then (if ymonth < xmonth then -1 else 1)
      else if yday < xday then -1 else 1

/-- Strict "earlier-than" order on optional dates: a missing date is
strictly below any present date, and present dates compare
lexicographically.  This is the order `latestFirst` decides (see
`latestFirst_eq_if`). -/
def dateLt : Option (Nat × Nat × Nat) → Option (Nat × Nat × Nat) → Bool
  | _, none => false
  | none, some _ => true
  | some (a, b, c), some (d, e, f) =>
    a < d || (a == d && (b < e || (b == e && decide (c < f))))

/-- One insertion step of a comparison sort driven by `latestFirst`:
`x` is placed before the first element `y` with `latestFirst x y ≤ 0`
(the ECMAScript contract: a comparator value `≤ 0` keeps `x` before
`y`). -/
def insertLF (x : Entry) : List Entry → List Entry
  | [] => [x]
  | y :: l => if latestFirst x y ≤ 0 then x :: y :: l else y :: insertLF x l

/-- Comparison sort with the `latestFirst` comparator.  This embeds the
sorting performed at the `sort: latestFirst` call sites
(src/index.js:94,101,303,309) and the `topResults.sort` call of
src/unnamed/part_000:75-83: a comparator-driven comparison sort placing
`x` before `y` whenever the comparator answers `≤ 0`. -/
def sortLF : List Entry → List Entry
  | [] => []
  | x :: l => insertLF x (sortLF l)

/-- Split a list of characters into space-separated words. -/
def splitSpaces (l : List Char) : List (List Char) :=
  match l with
  | [] => [[]]
  | c :: rest =>
    let r := splitSpaces rest
    if c = ' ' then [] :: r
    else (c :: r.headD []) :: r.tail

/-- Nonempty space-separated words of a string. -/
def words (s : String) : List String :=
  ((splitSpaces s.data).map (fun l => (⟨l⟩ : String))).filter (fun w => w ≠ "")

/-- Modelled from the spec: FlexSearch document matching is not part of
the repository sources.  Spec section 4.3: strict whitespace/word
tokenization over the concatenated blob field, with the identifier field
additionally supporting prefix (forward) matching, so a document matches
when every query word occurs as a word of the blob or is a prefix of the
identifier. -/
def docMatches (query : String) (d : Entry) : Bool :=
  (words query).all (fun t => (words d.data).contains t || jsStartsWith d.paperId t)

/-- Embeds the `where: { type: type }` filter passed to the index
(src/index.js:100,308): a document is eligible when its `type` field
equals the requested type; with no filter every document is eligible. -/
def typeMatches (ty : Option String) (d : Entry) : Bool :=
  match ty with
  | none => true
  | some t => d.type == some t

/-- All documents matching the query and the optional type filter. -/
def matchedDocs (docs : List Entry) (query : String) (ty : Option String) :
    List Entry :=
  docs.filter (fun d => docMatches query d && typeMatches ty d)

/-- Modelled from the spec: `index.search` of the FlexSearch library is
not part of the repository sources.  It collects the matching documents,
applies the optional `limit` cap at that point — per the repository's
own comment (src/index.js:296-297) the cap "discards relevant results",
i.e. it truncates the match set before the date ordering is
established — and hands the result to the `sort` comparator. -/
def indexSearch (docs : List Entry) (query : String) (ty : Option String)
    (limit : Option Nat) : List Entry :=
  let matched := matchedDocs docs query ty
  let matched :=
    match limit with
    | none => matched
    | some n => matched.take n
  sortLF matched

/-- The truncation and tier split applied to the sorted results
(src/index.js:315-320, src/unnamed/part_000:73-87): keep at most 30
results, the first 15 fully rendered and the remaining up to 15 as the
"Also:" overflow list. -/
def searchTiers (results : List Entry) : List Entry × List Entry :=
  let capped := results.take 30
  (capped.take 15, capped.drop 15)

/-- Embeds `search` (src/index.js:296-322, the variant that avoids
passing `limit: 30` to FlexSearch): query the index without a cap, answer
`'No results.'` on an empty match, otherwise truncate to 30, render the
first 15 in full and list the rest as bare links. -/
def search (paperData : Catalog) (docs : List Entry) (query : String)
    (ty : Option String) : String :=
  let searchResults := indexSearch docs query ty none
  if searchResults.length == 0 then "No results."
  else
    let searchResults := searchResults.take 30
    let topResults := searchResults.take 15
    (joinSep "\n" (topResults.map (fun r => makePaperMessage paperData r.paperId))) ++
      (if searchResults.length ≤ 15 then ""
       else "\nAlso: " ++ joinSep ", " ((searchResults.drop 15).map (fun r =>
         "<" ++ (((List.lookup r.paperId paperData).map Paper.link).getD "") ++
           "|" ++ r.paperId ++ ">")))

/-- Embeds the earlier `search` variant (src/index.js:89-114), which
passes `limit: 30` to `index.search`, capping the result set at the
index layer. -/
def searchCapped (paperData : Catalog) (docs : List Entry) (query : String)
    (ty : Option String) : String :=
  let searchResults := indexSearch docs query ty (some 30)
  if searchResults.length == 0 then "No results."
  else
    let topResults := searchResults.take 15
    (joinSep "\n" (topResults.map (fun r => makePaperMessage paperData r.paperId))) ++
      (if searchResults.length ≤ 15 then ""
       else "\nAlso: " ++ joinSep ", " ((searchResults.drop 15).map (fun r =>
         "<" ++ (((List.lookup r.paperId paperData).map Paper.link).getD "") ++
           "|" ++ r.paperId ++ ">")))

/-- ASCII decimal digit test (`\d` of the pattern). -/
def isDigitCh (c : Char) : Bool := 48 ≤ c.toNat && c.toNat ≤ 57

/-- Case-insensitive comparison of an input character against an
uppercase pattern letter (the `i` regex flag). -/
def chEq (c p : Char) : Bool := c.toUpper == p

/-- First alternative `N\d{4}` of the identifier pattern
(src/index.js:117): at most one way to match, returning the consumed
characters and the remainder. -/
def altN : List Char → Option (List Char × List Char)
  | a :: b :: c :: d :: e :: rest =>
    if chEq a 'N' && isDigitCh b && isDigitCh c && isDigitCh d && isDigitCh e then
      some ([a, b, c, d, e], rest)
    else none
  | _ => none

/-- Second alternative `[PD]\d{4}(R\d)?`: the greedy optional revision
suffix yields up to two match candidates, longest first (the
backtracking order of the regex engine). -/
def altPD : List Char → List (List Char × List Char)
  | a :: b :: c :: d :: e :: rest =>
    if (chEq a 'P' || chEq a 'D') && isDigitCh b && isDigitCh c && isDigitCh d &&
        isDigitCh e then
      match rest with
      | r :: f :: rest2 =>
        if chEq r 'R' && isDigitCh f then
          [([a, b, c, d, e, r, f], rest2), ([a, b, c, d, e], rest)]
        else [([a, b, c, d, e], rest)]
      | _ => [([a, b, c, d, e], rest)]
    else []
  | _ => []

/-- Case-insensitive literal prefix match: consume the characters of
`pre` (given in uppercase) from the input. -/
def prefMatch : List Char → List Char → Option (List Char × List Char)
  | [], l => some ([], l)
  | _ :: _, [] => none
  | p :: ps, c :: cs =>
    if chEq c p then (prefMatch ps cs).map (fun m => (c :: m.1, m.2)) else none

/-- Greedy `\d{1,3}`: the candidate digit runs in backtracking order
(three digits, then two, then one). -/
def digitsGreedy : List Char → List (List Char × List Char)
  | a :: b :: c :: rest =>
    if isDigitCh a then
      if isDigitCh b then
        if isDigitCh c then
          [([a, b, c], rest), ([a, b], c :: rest), ([a], b :: c :: rest)]
        else [([a, b], c :: rest), ([a], b :: c :: rest)]
      else [([a], b :: c :: rest)]
    else []
  | [a, b] =>
    if isDigitCh a then
      if isDigitCh b then [([a, b], []), ([a], [b])] else [([a], [b])]
    else []
  | [a] => if isDigitCh a then [([a], [])] else []
  | [] => []

/-- The issue-list prefixes of the third alternative, in the order the
regex alternation tries them: `CWG|EWG|LWG|LEWG|FS`. -/
def issuePrefixes : List (List Char) :=
  [['C', 'W', 'G'], ['E', 'W', 'G'], ['L', 'W', 'G'], ['L', 'E', 'W', 'G'], ['F', 'S']]

/-- Match candidates of one issue prefix followed by `\d{1,3}`. -/
def altIssueOne (pre l : List Char) : List (List Char × List Char) :=
  match prefMatch pre l with
  | none => []
  | some (m, rest) => (digitsGreedy rest).map (fun d => (m ++ d.1, d.2))

/-- Third alternative `(CWG|EWG|LWG|LEWG|FS)\d{1,3}`. -/
def altIssue (l : List Char) : List (List Char × List Char) :=
  (issuePrefixes.map (fun pre => altIssueOne pre l)).flatten

/-- All match candidates of the alternation at the current position, in
the order the regex engine tries them. -/
def candidatesAt (l : List Char) : List (List Char × List Char) :=
  (altN l).toList ++ altPD l ++ altIssue l

/-- Scan for the leftmost position where the alternation matches and
return the (first, greedy) match there — the semantics of
`text.match(re)` for a regex without anchors. -/
def matchScan : List Char → Option (List Char)
  | [] => none
  | c :: rest =>
    match (candidatesAt (c :: rest)).head? with
    | some m => some m.1
    | none => matchScan rest

/-- Embeds `matchPaper` (src/index.js:116-119): the first match of
`/(N\d{4}|[PD]\d{4}(R\d)?|(CWG|EWG|LWG|LEWG|FS)\d{1,3})/i` in the text,
or `none` (JS `undefined`) when there is no match. -/
def matchPaper (text : String) : Option String :=
  (matchScan text.data).map (fun l => (⟨l⟩ : String))

/-- Match candidates at a position for the bracketed pattern: a literal
`[`, then the alternation, then a literal `]`; the regex engine
backtracks through the alternation candidates until one is followed by
`]`. -/
def bracketAt : List Char → Option (List Char)
  | '[' :: rest =>
    (((candidatesAt rest).filter (fun m =>
        match m.2 with
        | ']' :: _ => true
        | _ => false)).head?).map (fun m => '[' :: m.1 ++ [']'])
  | _ => none

/-- Leftmost match of the bracketed pattern. -/
def bracketScan : List Char → Option (List Char)
  | [] => none
  | c :: rest =>
    match bracketAt (c :: rest) with
    | some m => some m
    | none => bracketScan rest

/-- Embeds `matchPaperInSquareBrackets` (src/index.js:121-124): the first
match of `/\[(N\d{4}|[PD]\d{4}(R\d)?|(CWG|EWG|LWG|LEWG|FS)\d{1,3})\]/i`,
brackets included, or `none` when there is no match. -/
def matchPaperInSquareBrackets (text : String) : Option String :=
  (bracketScan text.data).map (fun l => (⟨l⟩ : String))

/-- Exact-token membership in the first identifier family `N\d{4}`. -/
def tokN : List Char → Bool
  | [a, b, c, d, e] =>
    chEq a 'N' && isDigitCh b && isDigitCh c && isDigitCh d && isDigitCh e
  | _ => false

/-- Exact-token membership in the family `[PD]\d{4}(R\d)?`. -/
def tokPD : List Char → Bool
  | [a, b, c, d, e] =>
    (chEq a 'P' || chEq a 'D') && isDigitCh b && isDigitCh c && isDigitCh d &&
      isDigitCh e
  | [a, b, c, d, e, r, f] =>
    (chEq a 'P' || chEq a 'D') && isDigitCh b && isDigitCh c && isDigitCh d &&
      isDigitCh e && chEq r 'R' && isDigitCh f
  | _ => false

/-- Exact-token membership in the family `(CWG|EWG|LWG|LEWG|FS)\d{1,3}`. -/
def tokIssue (l : List Char) : Bool :=
  issuePrefixes.any (fun pre =>
    match prefMatch pre l with
    | none => false
    | some m => !m.2.isEmpty && m.2.length ≤ 3 && m.2.all isDigitCh)

/-- A string that is exactly an identifier of one of the recognized
families (case-insensitively), with the digit counts the source regex
actually uses. -/
def isFamilyToken (s : String) : Bool :=
  tokN s.data || tokPD s.data || tokIssue s.data

/-! ### Character and numeral lemmas -/

theorem toNat_ofNat_of_lt {n : Nat} (h : n < 55296) : (Char.ofNat n).toNat = n := by
  rw [Char.ofNat, dif_pos (Or.inl h)]
  rfl

/-- Upper-casing after lower-casing agrees with upper-casing directly. -/
theorem toUpper_toLower (c : Char) : c.toLower.toUpper = c.toUpper := by
  simp only [Char.toLower, Char.toUpper]
  by_cases h : c.toNat ≥ 65 ∧ c.toNat ≤ 90
  · rw [if_pos h]
    have hv : (Char.ofNat (c.toNat + 32)).toNat = c.toNat + 32 :=
      toNat_ofNat_of_lt (by omega)
    rw [hv, if_pos (by omega), if_neg (by omega)]
    have he : c.toNat + 32 - 32 = c.toNat := by omega
    rw [he, Char.ofNat_toNat]
  · rw [if_neg h]

theorem jsToUpper_jsToLower (s : String) : jsToUpper (jsToLower s) = jsToUpper s := by
  simp only [jsToUpper, jsToLower]
  congr 1
  rw [List.map_map]
  exact List.map_congr_left fun a _ => toUpper_toLower a

/-- Decimal value of a digit string (accumulator form). -/
def val10 (acc : Nat) : List Char → Nat
  | [] => acc
  | c :: cs => val10 (acc * 10 + (c.toNat - 48)) cs

theorem val10_nil (acc : Nat) : val10 acc [] = acc := rfl

theorem val10_cons (acc : Nat) (c : Char) (cs : List Char) :
    val10 acc (c :: cs) = val10 (acc * 10 + (c.toNat - 48)) cs := rfl

theorem digitChar_toNat {m : Nat} (h : m < 10) : (Nat.digitChar m).toNat - 48 = m := by
  interval_cases m <;> decide

theorem val10_toDigitsCore :
    ∀ (fuel n acc : Nat) (ds : List Char), n < fuel →
      ∃ k, val10 acc (Nat.toDigitsCore 10 fuel n ds) = val10 (acc * 10 ^ k + n) ds := by
  intro fuel
  induction fuel with
  | zero => intro n acc ds h; omega
  | succ fuel ih =>
    intro n acc ds h
    simp only [Nat.toDigitsCore]
    by_cases hz : n / 10 = 0
    · rw [if_pos hz]
      refine ⟨1, ?_⟩
      have hlt : n < 10 := by omega
      have hmod : n % 10 = n := Nat.mod_eq_of_lt hlt
      rw [val10_cons, hmod, digitChar_toNat hlt, pow_one]
    · rw [if_neg hz]
      have hn : n / 10 < fuel := by
        have h1 : n / 10 < n := Nat.div_lt_self (by omega) (by omega)
        omega
      obtain ⟨k, hk⟩ := ih (n / 10) acc (Nat.digitChar (n % 10) :: ds) hn
      refine ⟨k + 1, ?_⟩
      rw [hk]
      have hd : (Nat.digitChar (n % 10)).toNat - 48 = n % 10 :=
        digitChar_toNat (Nat.mod_lt _ (by omega))
      rw [val10_cons, hd]
      have : (acc * 10 ^ k + n / 10) * 10 + n % 10 = acc * 10 ^ (k + 1) + n := by
        rw [Nat.pow_succ]
        have := Nat.div_add_mod n 10
        ring_nf
        omega
      rw [this]

theorem val10_repr (n : Nat) : val10 0 (Nat.toDigits 10 n) = n := by
  obtain ⟨k, hk⟩ := val10_toDigitsCore (n + 1) n 0 [] (Nat.lt_succ_self n)
  simpa [Nat.toDigits, val10_nil] using hk

theorem repr_injective : Function.Injective Nat.repr := by
  intro i j h
  have hdata : (Nat.toDigits 10 i) = (Nat.toDigits 10 j) := by
    have := congrArg String.data h
    simpa [Nat.repr, List.asString] using this
  calc i = val10 0 (Nat.toDigits 10 i) := (val10_repr i).symm
    _ = val10 0 (Nat.toDigits 10 j) := by rw [hdata]
    _ = j := val10_repr j

theorem string_eq_of_data {a b : String} (h : a.data = b.data) : a = b := by
  cases a
  cases b
  exact congrArg String.mk (by simpa using h)

theorem revKey_injective (pid : String) : Function.Injective (revKey pid) := by
  intro i j h
  apply repr_injective
  have hdata := congrArg String.data h
  simp only [revKey] at hdata
  have hsplit : ∀ m : Nat, (pid ++ "R" ++ Nat.repr m).data =
      (pid ++ "R").data ++ (Nat.repr m).data := by
    intro m
    rfl
  rw [hsplit i, hsplit j] at hdata
  exact string_eq_of_data (List.append_cancel_left hdata)

/-! ### Revision resolution (C1 machinery) -/

theorem hasKey_mem_keys {cat : Catalog} {k : String} (h : hasKey cat k = true) :
    k ∈ cat.map Prod.fst := by
  induction cat with
  | nil => simp [hasKey, List.lookup] at h
  | cons p t ih =>
    obtain ⟨k1, v1⟩ := p
    simp only [hasKey, List.lookup] at h
    cases hbeq : (k == k1) with
    | true =>
      have hkk : k = k1 := by simpa [beq_iff_eq] using hbeq
      simp [hkk]
    | false =>
      rw [hbeq] at h
      simp only [List.map_cons, List.mem_cons]
      exact Or.inr (ih h)

theorem revKeys_present_bound {cat : Catalog} {pid : String} {k : Nat}
    (h1 : ∀ i, i ≤ k → hasKey cat (revKey pid i) = true) : k < cat.length := by
  have hnodup : ((List.range (k + 1)).map (revKey pid)).Nodup :=
    (List.nodup_range _).map (revKey_injective pid)
  have hsub : ((List.range (k + 1)).map (revKey pid)).toFinset ⊆
      (cat.map Prod.fst).toFinset := by
    intro x hx
    rw [List.mem_toFinset] at hx ⊢
    obtain ⟨i, hi, rfl⟩ := List.mem_map.mp hx
    exact hasKey_mem_keys (h1 i (by simpa using Nat.lt_succ_iff.mp (List.mem_range.mp hi)))
  have hcard := Finset.card_le_card hsub
  rw [List.toFinset_card_of_nodup hnodup] at hcard
  have hle := List.toFinset_card_le (cat.map Prod.fst)
  simp only [List.length_map, List.length_range] at hcard hle
  omega

theorem findLatestRevisionAux_stop {cat : Catalog} {pid : String} {r fuel : Nat}
    (h : hasKey cat (revKey pid r) = false) :
    findLatestRevisionAux cat pid (fuel + 1) r = none := by
  simp [findLatestRevisionAux, h]

theorem findLatestRevisionAux_run (cat : Catalog) (pid : String) (k : Nat)
    (hk : hasKey cat (revKey pid (k + 1)) = false) :
    ∀ fuel r, r ≤ k + 1 → k + 2 - r ≤ fuel →
      (∀ i, r ≤ i → i ≤ k → hasKey cat (revKey pid i) = true) →
      findLatestRevisionAux cat pid fuel r = if r = k + 1 then none else some k := by
  intro fuel
  induction fuel with
  | zero => intro r h1 h2 _; omega
  | succ fuel ih =>
    intro r h1 h2 h3
    by_cases hr : r = k + 1
    · rw [if_pos hr, hr]
      exact findLatestRevisionAux_stop hk
    · rw [if_neg hr]
      have hrk : r ≤ k := by omega
      have hcur : hasKey cat (revKey pid r) = true := h3 r le_rfl hrk
      simp only [findLatestRevisionAux, hcur, if_true]
      have hrec := ih (r + 1) (by omega) (by omega)
        (fun i hi1 hi2 => h3 i (by omega) hi2)
      by_cases hre : r + 1 = k + 1
      · rw [if_pos hre] at hrec
        rw [hrec]
        simp only [Option.getD_none]
        congr 1
        omega
      · rw [if_neg hre] at hrec
        rw [hrec]
        rfl

/-- C1: for a bare identifier whose revision family has `R0..Rk` present
and `R(k+1)` absent, `findLatestRevision` probes `R0, R1, …` and returns
the identifier suffixed with the highest contiguous revision `Rk`; when
`R0` itself is absent it returns `none` (the JS `undefined`). -/
theorem revision_resolution_correct (cat : Catalog) (pid : String) (k : Nat) :
    ((∀ i, i ≤ k → hasKey cat (revKey pid i) = true) →
      hasKey cat (revKey pid (k + 1)) = false →
      findLatestRevision cat pid = some (revKey pid k)) ∧
    (hasKey cat (revKey pid 0) = false → findLatestRevision cat pid = none) := by
  constructor
  · intro h1 h2
    have hbound : k < cat.length := revKeys_present_bound h1
    have := findLatestRevisionAux_run cat pid k h2 (cat.length + 1) 0
      (by omega) (by omega) (fun i _ hi => h1 i hi)
    rw [if_neg (by omega)] at this
    simp [findLatestRevision, this]
  · intro h0
    simp [findLatestRevision, findLatestRevisionAux_stop h0]

/-- Witness for C1 on a concrete catalog: `P1234R0` and `P1234R1` are
present, `P1234R2` absent, and resolution of the bare `P1234` answers
`P1234R1`; for an identifier with no `R0` at all, resolution answers
`none`. -/
theorem revision_resolution_correct_witness :
    findLatestRevision
        [("P1234R0", { title := "T0", link := "L0" }),
         ("P1234R1", { title := "T1", link := "L1" })] "P1234" = some "P1234R1" ∧
      findLatestRevision
        [("P1234R0", { title := "T0", link := "L0" }),
         ("P1234R1", { title := "T1", link := "L1" })] "Q777" = none := by
  constructor
  · exact (revision_resolution_correct _ "P1234" 1).1
      (by intro i hi; interval_cases i <;> decide) (by decide)
  · exact (revision_resolution_correct _ "Q777" 0).2 (by decide)

/-! ### Date comparator and sorting (C2, C10 machinery) -/

theorem latestFirst_eq_if (x y : Entry) :
    latestFirst x y = if dateLt y.date x.date = true then -1 else 1 := by
  obtain ⟨xdata, xpid, xty, xdate⟩ := x
  obtain ⟨ydata, ypid, yty, ydate⟩ := y
  rcases xdate with _ | ⟨⟨a, b, c⟩⟩ <;> rcases ydate with _ | ⟨⟨d, e, f⟩⟩
  · simp [latestFirst, dateLt]
  · simp [latestFirst, dateLt]
  · simp [latestFirst, dateLt]
  · simp only [latestFirst, dateLt, Bool.or_eq_true, Bool.and_eq_true,
      decide_eq_true_eq, beq_iff_eq]
    split_ifs <;> omega

theorem dateLt_irrefl (o : Option (Nat × Nat × Nat)) : dateLt o o = false := by
  rcases o with _ | ⟨⟨a, b, c⟩⟩ <;>
    simp [dateLt]

theorem dateLt_some_some (a b c d e f : Nat) :
    dateLt (some (a, b, c)) (some (d, e, f)) = true ↔
      a < d ∨ (a = d ∧ (b < e ∨ (b = e ∧ c < f))) := by
  simp [dateLt, Bool.or_eq_true, Bool.and_eq_true, decide_eq_true_eq, beq_iff_eq]

theorem dateLt_asymm {o p : Option (Nat × Nat × Nat)} (h : dateLt o p = true) :
    dateLt p o = false := by
  rcases o with _ | ⟨⟨a, b, c⟩⟩ <;> rcases p with _ | ⟨⟨d, e, f⟩⟩
  · simp [dateLt] at h
  · simp [dateLt]
  · simp [dateLt] at h
  · rw [dateLt_some_some] at h
    rw [Bool.eq_false_iff, Ne, dateLt_some_some]
    omega

theorem dateLt_chain {o p q : Option (Nat × Nat × Nat)} (h1 : dateLt o p = false)
    (h2 : dateLt o q = true) : dateLt q p = false := by
  rcases o with _ | ⟨⟨a, b, c⟩⟩ <;> rcases p with _ | ⟨⟨d, e, f⟩⟩ <;>
    rcases q with _ | ⟨⟨g, i, j⟩⟩
  · simp [dateLt] at h2
  · simp [dateLt]
  · simp [dateLt] at h2
  · simp [dateLt] at h1
  · simp [dateLt] at h2
  · simp [dateLt]
  · simp [dateLt] at h2
  · rw [Bool.eq_false_iff, Ne, dateLt_some_some] at h1
    rw [dateLt_some_some] at h2
    rw [Bool.eq_false_iff, Ne, dateLt_some_some]
    omega

theorem latestFirst_neg_iff (x y : Entry) :
    latestFirst x y ≤ 0 ↔ dateLt y.date x.date = true := by
  rw [latestFirst_eq_if]
  split_ifs with h
  · exact iff_of_true (by norm_num) h
  · exact iff_of_false (by norm_num) h

theorem mem_insertLF {x a : Entry} {l : List Entry} :
    x ∈ insertLF a l → x = a ∨ x ∈ l := by
  induction l with
  | nil => intro h; simpa [insertLF] using h
  | cons y t ih =>
    intro h
    simp only [insertLF] at h
    split_ifs at h
    · simpa using h
    · rcases List.mem_cons.mp h with h | h
      · exact Or.inr (by simp [h])
      · rcases ih h with h | h
        · exact Or.inl h
        · exact Or.inr (by simp [h])

theorem insertLF_perm (a : Entry) (l : List Entry) :
    List.Perm (insertLF a l) (a :: l) := by
  induction l with
  | nil => exact List.Perm.refl _
  | cons y t ih =>
    simp only [insertLF]
    split_ifs
    · exact List.Perm.refl _
    · exact (ih.cons y).trans (List.Perm.swap a y t)

theorem sortLF_perm (l : List Entry) : List.Perm (sortLF l) l := by
  induction l with
  | nil => exact List.Perm.refl _
  | cons x t ih => exact (insertLF_perm x (sortLF t)).trans (ih.cons x)

theorem pairwise_insertLF {a : Entry} {l : List Entry}
    (h : l.Pairwise fun x y => dateLt x.date y.date = false) :
    (insertLF a l).Pairwise fun x y => dateLt x.date y.date = false := by
  induction l with
  | nil => simp [insertLF]
  | cons y t ih =>
    rw [List.pairwise_cons] at h
    obtain ⟨hy, ht⟩ := h
    simp only [insertLF]
    split_ifs with hc
    · have hya : dateLt y.date a.date = true := (latestFirst_neg_iff a y).mp hc
      rw [List.pairwise_cons]
      refine ⟨?_, List.pairwise_cons.mpr ⟨hy, ht⟩⟩
      intro z hz
      rcases List.mem_cons.mp hz with rfl | hz
      · exact dateLt_asymm hya
      · exact dateLt_chain (hy z hz) hya
    · have hya : dateLt y.date a.date = false := by
        rcases Bool.eq_false_or_eq_true (dateLt y.date a.date) with h | h
        · exact absurd ((latestFirst_neg_iff a y).mpr h) hc
        · exact h
      rw [List.pairwise_cons]
      refine ⟨?_, ih ht⟩
      intro z hz
      rcases mem_insertLF hz with rfl | hz
      · exact hya
      · exact hy z hz

theorem sortLF_pairwise (l : List Entry) :
    (sortLF l).Pairwise fun x y => dateLt x.date y.date = false := by
  induction l with
  | nil => simp [sortLF]
  | cons x t ih => exact pairwise_insertLF ih

/-- C2: sorting any sequence of raw matches with the `latestFirst`
comparator yields a permutation ordered by date descending only: no
entry is followed by one with a strictly later date (in particular every
entry with a present date precedes every entry with a missing date, and
of two present dates the later one comes strictly first).  Stated both
through the comparator (`latestFirst y x ≠ -1`: no later element `y`
appears after `x`) and through the strict date order `dateLt`. -/
theorem ranked_output_date_descending (l : List Entry) :
    List.Perm (sortLF l) l ∧
      (sortLF l).Pairwise (fun x y => dateLt x.date y.date = false) ∧
      (sortLF l).Pairwise (fun x y => latestFirst y x ≠ -1) := by
  refine ⟨sortLF_perm l, sortLF_pairwise l, ?_⟩
  refine (sortLF_pairwise l).imp ?_
  intro x y h
  rw [latestFirst_eq_if, h]
  decide

/-- C10: the comparator `latestFirst` never answers `0`; it answers `1`
on identical entries, and on any two entries with equal dates (equal
present dates, or both missing) it answers `1` in both argument orders —
so it is not antisymmetric and does not determine the relative order of
equal-date results. -/
theorem latestFirst_never_zero (x y : Entry) :
    latestFirst x y ≠ 0 ∧ latestFirst x x = 1 ∧
      (x.date = y.date → latestFirst x y = 1 ∧ latestFirst y x = 1) := by
  refine ⟨?_, ?_, ?_⟩
  · rw [latestFirst_eq_if]
    split_ifs <;> omega
  · rw [latestFirst_eq_if, dateLt_irrefl]
    simp
  · intro h
    constructor
    · rw [latestFirst_eq_if, h, dateLt_irrefl]
      simp
    · rw [latestFirst_eq_if, h, dateLt_irrefl]
      simp

/-- Two distinct entries sharing the date `2020-01-01`. -/
def entA : Entry := { data := "", paperId := "a", date := some (2020, 1, 1) }

/-- Second sample entry (see `entA`). -/
def entB : Entry := { data := "", paperId := "b", date := some (2020, 1, 1) }

/-- Witness for C10: on the concrete distinct equal-date entries `entA`
and `entB` the comparator answers `1` in both argument orders. -/
theorem latestFirst_never_zero_witness :
    latestFirst entA entB = 1 ∧ latestFirst entB entA = 1 :=
  (latestFirst_never_zero entA entB).2.2 rfl

/-! ### Pagination, index cap, lookup properties (C3, C6, C7, C8, C9) -/

/-- C3: the tier split of the sorted results keeps at most 15 detailed
entries, at most 30 entries in total across the detailed and overflow
tiers, and produces a non-empty overflow tier only when the total number
of matches exceeds 15. -/
theorem pagination_invariant (l : List Entry) :
    (searchTiers l).1.length ≤ 15 ∧
      (searchTiers l).1.length + (searchTiers l).2.length ≤ 30 ∧
      ((searchTiers l).2 ≠ [] → 15 < l.length) := by
  refine ⟨?_, ?_, ?_⟩
  · simp only [searchTiers, List.length_take]
    omega
  · simp only [searchTiers, List.length_take, List.length_drop]
    omega
  · intro h
    have hpos : 0 < (searchTiers l).2.length := List.length_pos.mpr h
    simp only [searchTiers, List.length_drop, List.length_take] at hpos
    omega

/-- Witness for C3 on a concrete 16-element result list: the overflow
tier is non-empty and the total count exceeds 15. -/
theorem pagination_invariant_witness :
    (searchTiers (List.replicate 16 entA)).1.length ≤ 15 ∧
      15 < (List.replicate 16 entA).length :=
  ⟨(pagination_invariant (List.replicate 16 entA)).1,
    (pagination_invariant (List.replicate 16 entA)).2.2 (by decide)⟩

/-- C6 amended: the uncapped index query (the `search` variant of
src/index.js:296-322, which passes no `limit`) hands the ranking stage
exactly the matching documents — membership in its result is equivalent
to being a catalog document matching the query and the optional type
filter.  The earlier variant (src/index.js:89-114) passes `limit: 30`
and loses matching documents (see the counterexample). -/
theorem uncapped_index_returns_all_matches (docs : List Entry) (query : String)
    (ty : Option String) (d : Entry) :
    d ∈ indexSearch docs query ty none ↔
      d ∈ docs ∧ (docMatches query d && typeMatches ty d) = true := by
  unfold indexSearch
  rw [(sortLF_perm _).mem_iff]
  simp [matchedDocs, List.mem_filter]

/-- One of 31 identical-blob documents used in the C6 counterexample. -/
def conceptsDoc (i : Nat) : Entry :=
  { data := "concepts", paperId := Nat.repr i, date := some (2000 + i, 1, 1) }

/-- A catalog of 31 documents all matching the query `concepts`. -/
def docs31 : List Entry := (List.range 31).map conceptsDoc

/-- C6 counterexample: with the `limit: 30` cap of the earlier `search`
variant (src/index.js:89-114) the set handed to the ranking stage does
not equal the set of all matching documents — the 31st matching document
(which has the latest date of all) is dropped at the index layer. -/
theorem capped_index_drops_match :
    conceptsDoc 30 ∈ docs31 ∧
      (docMatches "concepts" (conceptsDoc 30) && typeMatches none (conceptsDoc 30))
        = true ∧
      conceptsDoc 30 ∉ indexSearch docs31 "concepts" none (some 30) := by
  refine ⟨?_, ?_, ?_⟩ <;> decide

/-- C7: lookup is case-insensitive — `findPaper` normalizes its argument
to uppercase before resolving, so looking up the lowercase form of any
catalog key gives the same result as looking up the key itself. -/
theorem lookup_case_insensitive (cat : Catalog) (pid : String)
    (h : hasKey cat pid = true) :
    findPaper cat (jsToLower pid) = findPaper cat pid := by
  unfold findPaper
  rw [jsToUpper_jsToLower]

/-- Witness for C7: the catalog key `P1234R2` and its lowercase form
resolve to the same rendered message. -/
theorem lookup_case_insensitive_witness :
    hasKey [("P1234R2", { title := "T", link := "L" })] "P1234R2" = true ∧
      findPaper [("P1234R2", { title := "T", link := "L" })] (jsToLower "P1234R2") =
        findPaper [("P1234R2", { title := "T", link := "L" })] "P1234R2" :=
  ⟨by decide,
    lookup_case_insensitive [("P1234R2", { title := "T", link := "L" })] "P1234R2"
      (by decide)⟩

/-- C8: both error paths are plain-text sentinel results, never
exceptions (the embedded operations are total functions into `String`):
a lookup whose resolved identifier is absent from the catalog answers
exactly `'Sorry, I could not find that paper.'`, and a search matching
zero documents answers the distinct `'No results.'`. -/
theorem error_sentinels (cat : Catalog) (pid : String) (docs : List Entry)
    (query : String) (ty : Option String) :
    (hasKey cat (resolveId cat (jsToUpper pid)) = false →
      findPaper cat pid = "Sorry, I could not find that paper.") ∧
    (matchedDocs docs query ty = [] →
      search cat docs query ty = "No results.") := by
  constructor
  · intro h
    simp [findPaper, h]
  · intro h
    simp [search, indexSearch, h, sortLF]

/-- Witness for C8: a lookup of `Z999` in the empty catalog answers the
not-found sentinel, and a search over no documents answers the
no-results sentinel. -/
theorem error_sentinels_witness :
    findPaper [] "Z999" = "Sorry, I could not find that paper." ∧
      search [] [] "concepts" none = "No results." :=
  ⟨(error_sentinels [] "Z999" [] "concepts" none).1 (by decide),
    (error_sentinels [] "Z999" [] "concepts" none).2 rfl⟩

/-- C9: when a bare five-character `P`/`D` identifier has no `R0` in the
catalog but is itself a catalog key, `findPaper` of src/index.js falls
back to the identifier as typed and renders its record, while the
part_000 variant has no such fallback (resolution failure yields the
not-found sentinel there) and applies resolution only to the `P` prefix
(a `D` identifier is looked up untouched). -/
theorem bare_fallback_vs_part0 (cat : Catalog) (pid : String) :
    (jsToUpper pid = pid →
      (jsStartsWith pid "P" || jsStartsWith pid "D") = true →
      pid.length = 5 →
      hasKey cat (revKey pid 0) = false →
      hasKey cat pid = true →
      findPaper cat pid = makePaperMessage cat pid) ∧
    (jsStartsWith pid "P" = true →
      pid.length = 5 →
      hasKey cat (revKey pid 0) = false →
      lookupPart0 cat pid = "Sorry, I could not find that paper.") ∧
    (jsStartsWith pid "D" = true →
      lookupPart0 cat pid =
        if hasKey cat pid then makePaperMessage cat pid
        else "Sorry, I could not find that paper.") := by
  refine ⟨?_, ?_, ?_⟩
  · intro hu hsw hlen h0 hmem
    have hrev : findLatestRevision cat pid = none := by
      simp [findLatestRevision, findLatestRevisionAux_stop h0]
    have hres : resolveId cat pid = pid := by
      simp [resolveId, hsw, hlen, hrev]
    simp [findPaper, hu, hres, hmem]
  · intro hsw hlen h0
    have hrev : findLatestRevision cat pid = none := by
      simp [findLatestRevision, findLatestRevisionAux_stop h0]
    simp [lookupPart0, hsw, hlen, hrev]
  · intro hsw
    have hne : jsStartsWith pid "P" = false := by
      rcases hd : pid.data with _ | ⟨c, rest⟩
      · simp [jsStartsWith, hd, List.isPrefixOf] at hsw
      · have hc : 'D' = c := by
          simpa [jsStartsWith, hd, List.isPrefixOf, List.isPrefixOf_cons₂] using hsw
        simp [jsStartsWith, hd, ← hc, List.isPrefixOf]
    simp [lookupPart0, hne]

/-- Witness for C9: catalog containing only the bare `P1234`; the
index.js lookup renders it while the part_000 lookup answers the
sentinel; a `D`-prefixed identifier is looked up by part_000 without any
resolution. -/
theorem bare_fallback_vs_part0_witness :
    findPaper [("P1234", { title := "T", link := "L" })] "P1234" =
        makePaperMessage [("P1234", { title := "T", link := "L" })] "P1234" ∧
      lookupPart0 [("P1234", { title := "T", link := "L" })] "P1234" =
        "Sorry, I could not find that paper." ∧
      lookupPart0 [("P1234", { title := "T", link := "L" })] "D1234" =
        (if hasKey [("P1234", { title := "T", link := "L" })] "D1234" then
          makePaperMessage [("P1234", { title := "T", link := "L" })] "D1234"
        else "Sorry, I could not find that paper.") :=
  ⟨(bare_fallback_vs_part0 [("P1234", { title := "T", link := "L" })] "P1234").1
      (by decide) (by decide) (by decide) (by decide) (by decide),
    (bare_fallback_vs_part0 [("P1234", { title := "T", link := "L" })] "P1234").2.1
      (by decide) (by decide) (by decide),
    (bare_fallback_vs_part0 [("P1234", { title := "T", link := "L" })] "D1234").2.2
      (by decide)⟩

/-! ### Identifier pattern matcher (C4, C5) -/

/-- C4 counterexample: the bare-token matcher has no boundary anchoring,
so on the input `N12345`, which contains a 5-digit number, it does
report a match of the 4-digit pattern embedded inside it. -/
theorem five_digit_number_matches_partially :
    matchPaper "N12345" = some "N1234" := by decide

/-- C4 amended: pattern extraction produces the first matched substring
or `none`; the bare-token matcher may match partially — a token
containing a 5-digit number yields the embedded 4-digit match — while
the bracketed matcher, whose closing bracket must immediately follow the
identifier, rejects such a token. -/
theorem partial_match_behaviour :
    matchPaper "N12345" = some "N1234" ∧
      matchPaperInSquareBrackets "[N12345]" = none := by
  constructor <;> decide

/-- C5 counterexample: the source regex allows only one to three digits
after `CWG`/`EWG`/`LWG`/`LEWG`/`FS` (`\d{1,3}`, not `\d{1,4}`), so a
4-digit issue identifier is not detected as such — only its 3-digit
prefix matches. -/
theorem four_digit_issue_not_detected :
    matchPaper "CWG1234" = some "CWG123" ∧
      matchPaper "CWG1234" ≠ some "CWG1234" := by
  constructor <;> decide

theorem chEq_upper {c p : Char} (h : chEq c p = true) : c.toUpper = p := by
  simpa [chEq] using h

theorem prefMatch_sound : ∀ {pre l m rest : List Char},
    prefMatch pre l = some (m, rest) →
    l = m ++ rest ∧ List.Forall₂ (fun c p => chEq c p = true) m pre := by
  intro pre
  induction pre with
  | nil =>
    intro l m rest h
    simp only [prefMatch, Option.some.injEq, Prod.mk.injEq] at h
    obtain ⟨h1, h2⟩ := h
    subst h1
    subst h2
    exact ⟨rfl, List.Forall₂.nil⟩
  | cons p ps ih =>
    intro l m rest h
    match l with
    | [] => simp [prefMatch] at h
    | c :: cs =>
      simp only [prefMatch] at h
      by_cases hc : chEq c p = true
      · rw [if_pos hc] at h
        rw [Option.map_eq_some'] at h
        obtain ⟨⟨m', r'⟩, hm, heq⟩ := h
        obtain ⟨hl, hf⟩ := ih hm
        simp only [Prod.mk.injEq] at heq
        obtain ⟨hm1, hr1⟩ := heq
        subst hm1
        subst hr1
        exact ⟨by simp [hl], List.Forall₂.cons hc hf⟩
      · rw [if_neg hc] at h
        exact absurd h (by simp)

theorem prefMatch_complete : ∀ {pre m : List Char} (rest : List Char),
    List.Forall₂ (fun c p => chEq c p = true) m pre →
    prefMatch pre (m ++ rest) = some (m, rest) := by
  intro pre m rest h
  induction h with
  | nil => rfl
  | cons hc _ ih => simp [prefMatch, hc, ih]

theorem digitsGreedy_mem : ∀ {ds : List Char} {d r : List Char},
    (d, r) ∈ digitsGreedy ds →
    d ≠ [] ∧ d.length ≤ 3 ∧ d.all isDigitCh = true := by
  intro ds d r h
  match ds with
  | [] => simp [digitsGreedy] at h
  | [a] =>
    simp only [digitsGreedy] at h
    split_ifs at h with h1
    · simp only [List.mem_singleton, Prod.mk.injEq] at h
      obtain ⟨rfl, rfl⟩ := h
      simp [h1]
    · simp at h
  | [a, b] =>
    simp only [digitsGreedy] at h
    split_ifs at h with h1 h2
    · rcases List.mem_cons.mp h with heq | h
      · simp only [Prod.mk.injEq] at heq
        obtain ⟨rfl, rfl⟩ := heq
        simp [h1, h2]
      · simp only [List.mem_singleton, Prod.mk.injEq] at h
        obtain ⟨rfl, rfl⟩ := h
        simp [h1]
    · simp only [List.mem_singleton, Prod.mk.injEq] at h
      obtain ⟨rfl, rfl⟩ := h
      simp [h1]
    · simp at h
  | a :: b :: c :: rest =>
    simp only [digitsGreedy] at h
    split_ifs at h with h1 h2 h3
    · rcases List.mem_cons.mp h with heq | h
      · simp only [Prod.mk.injEq] at heq
        obtain ⟨rfl, rfl⟩ := heq
        simp [h1, h2, h3]
      · rcases List.mem_cons.mp h with heq | h
        · simp only [Prod.mk.injEq] at heq
          obtain ⟨rfl, rfl⟩ := heq
          simp [h1, h2]
        · simp only [List.mem_singleton, Prod.mk.injEq] at h
          obtain ⟨rfl, rfl⟩ := h
          simp [h1]
    · rcases List.mem_cons.mp h with heq | h
      · simp only [Prod.mk.injEq] at heq
        obtain ⟨rfl, rfl⟩ := heq
        simp [h1, h2]
      · simp only [List.mem_singleton, Prod.mk.injEq] at h
        obtain ⟨rfl, rfl⟩ := h
        simp [h1]
    · simp only [List.mem_singleton, Prod.mk.injEq] at h
      obtain ⟨rfl, rfl⟩ := h
      simp [h1]
    · simp at h

theorem digitsGreedy_head : ∀ {ds : List Char}, ds ≠ [] → ds.length ≤ 3 →
    ds.all isDigitCh = true → (digitsGreedy ds).head? = some (ds, []) := by
  intro ds h1 h2 h3
  match ds with
  | [] => exact absurd rfl h1
  | [a] =>
    simp only [List.all_cons, List.all_nil, Bool.and_true] at h3
    simp [digitsGreedy, h3]
  | [a, b] =>
    simp only [List.all_cons, List.all_nil, Bool.and_true, Bool.and_eq_true] at h3
    simp [digitsGreedy, h3.1, h3.2]
  | [a, b, c] =>
    simp only [List.all_cons, List.all_nil, Bool.and_true, Bool.and_eq_true] at h3
    simp [digitsGreedy, h3.1, h3.2.1, h3.2.2]
  | a :: b :: c :: d :: tl => simp at h2

theorem matchScan_cons (c : Char) (rest : List Char) :
    matchScan (c :: rest) =
      match (candidatesAt (c :: rest)).head? with
      | some m => some m.1
      | none => matchScan rest := rfl

theorem matchScan_of_head {l : List Char} {m : List Char × List Char}
    (h : (candidatesAt l).head? = some m) : matchScan l = some m.1 := by
  cases l with
  | nil =>
    rw [show candidatesAt [] = [] from rfl] at h
    simp at h
  | cons c rest =>
    rw [matchScan_cons, h]

theorem matchScan_tokN {l : List Char} (h : tokN l = true) : matchScan l = some l := by
  match l with
  | [a, b, c, d, e] =>
    simp only [tokN, Bool.and_eq_true] at h
    obtain ⟨⟨⟨⟨h1, h2⟩, h3⟩, h4⟩, h5⟩ := h
    exact @matchScan_of_head [a, b, c, d, e] ([a, b, c, d, e], [])
      (by simp [candidatesAt, altN, h1, h2, h3, h4, h5])
  | [] => simp [tokN] at h
  | [_] => simp [tokN] at h
  | [_, _] => simp [tokN] at h
  | [_, _, _] => simp [tokN] at h
  | [_, _, _, _] => simp [tokN] at h
  | _ :: _ :: _ :: _ :: _ :: _ :: _ => simp [tokN] at h

theorem matchScan_tokPD {l : List Char} (h : tokPD l = true) :
    matchScan l = some l := by
  match l with
  | [a, b, c, d, e] =>
    simp only [tokPD, Bool.and_eq_true] at h
    obtain ⟨⟨⟨⟨h1, h2⟩, h3⟩, h4⟩, h5⟩ := h
    rcases Bool.or_eq_true_iff.mp h1 with hP | hD
    · exact @matchScan_of_head [a, b, c, d, e] ([a, b, c, d, e], []) (by
        simp [candidatesAt, altN, altPD, chEq, chEq_upper hP, h2, h3, h4, h5])
    · exact @matchScan_of_head [a, b, c, d, e] ([a, b, c, d, e], []) (by
        simp [candidatesAt, altN, altPD, chEq, chEq_upper hD, h2, h3, h4, h5])
  | [a, b, c, d, e, r, f] =>
    simp only [tokPD, Bool.and_eq_true] at h
    obtain ⟨⟨⟨⟨⟨⟨h1, h2⟩, h3⟩, h4⟩, h5⟩, h6⟩, h7⟩ := h
    rcases Bool.or_eq_true_iff.mp h1 with hP | hD
    · exact @matchScan_of_head [a, b, c, d, e, r, f] ([a, b, c, d, e, r, f], []) (by
        simp [candidatesAt, altN, altPD, chEq, chEq_upper hP, chEq_upper h6,
          h2, h3, h4, h5, h7])
    · exact @matchScan_of_head [a, b, c, d, e, r, f] ([a, b, c, d, e, r, f], []) (by
        simp [candidatesAt, altN, altPD, chEq, chEq_upper hD, chEq_upper h6,
          h2, h3, h4, h5, h7])
  | [] => simp [tokPD] at h
  | [_] => simp [tokPD] at h
  | [_, _] => simp [tokPD] at h
  | [_, _, _] => simp [tokPD] at h
  | [_, _, _, _] => simp [tokPD] at h
  | [_, _, _, _, _, _] => simp [tokPD] at h
  | _ :: _ :: _ :: _ :: _ :: _ :: _ :: _ :: _ => simp [tokPD] at h

theorem prefMatch_shape2 {p1 p2 : Char} {l m ds : List Char}
    (hpm : prefMatch [p1, p2] l = some (m, ds)) :
    ∃ c1 c2, m = [c1, c2] ∧ l = c1 :: c2 :: ds ∧
      c1.toUpper = p1 ∧ c2.toUpper = p2 := by
  obtain ⟨hl, hf⟩ := prefMatch_sound hpm
  have hlen := hf.length_eq
  match m, hf with
  | [c1, c2], hf =>
    rcases hf with _ | ⟨hu1, hf⟩
    rcases hf with _ | ⟨hu2, _⟩
    exact ⟨c1, c2, rfl, by simpa using hl, chEq_upper hu1, chEq_upper hu2⟩

theorem prefMatch_shape3 {p1 p2 p3 : Char} {l m ds : List Char}
    (hpm : prefMatch [p1, p2, p3] l = some (m, ds)) :
    ∃ c1 c2 c3, m = [c1, c2, c3] ∧ l = c1 :: c2 :: c3 :: ds ∧
      c1.toUpper = p1 ∧ c2.toUpper = p2 ∧ c3.toUpper = p3 := by
  obtain ⟨hl, hf⟩ := prefMatch_sound hpm
  have hlen := hf.length_eq
  match m, hf with
  | [c1, c2, c3], hf =>
    rcases hf with _ | ⟨hu1, hf⟩
    rcases hf with _ | ⟨hu2, hf⟩
    rcases hf with _ | ⟨hu3, _⟩
    exact ⟨c1, c2, c3, rfl, by simpa using hl, chEq_upper hu1, chEq_upper hu2,
      chEq_upper hu3⟩

theorem prefMatch_shape4 {p1 p2 p3 p4 : Char} {l m ds : List Char}
    (hpm : prefMatch [p1, p2, p3, p4] l = some (m, ds)) :
    ∃ c1 c2 c3 c4, m = [c1, c2, c3, c4] ∧ l = c1 :: c2 :: c3 :: c4 :: ds ∧
      c1.toUpper = p1 ∧ c2.toUpper = p2 ∧ c3.toUpper = p3 ∧ c4.toUpper = p4 := by
  obtain ⟨hl, hf⟩ := prefMatch_sound hpm
  have hlen := hf.length_eq
  match m, hf with
  | [c1, c2, c3, c4], hf =>
    rcases hf with _ | ⟨hu1, hf⟩
    rcases hf with _ | ⟨hu2, hf⟩
    rcases hf with _ | ⟨hu3, hf⟩
    rcases hf with _ | ⟨hu4, _⟩
    exact ⟨c1, c2, c3, c4, rfl, by simpa using hl, chEq_upper hu1, chEq_upper hu2,
      chEq_upper hu3, chEq_upper hu4⟩

theorem matchScan_cwg {c1 c2 c3 : Char} {ds : List Char}
    (hu1 : c1.toUpper = 'C') (hu2 : c2.toUpper = 'W') (hu3 : c3.toUpper = 'G')
    (h1 : ds ≠ []) (h2 : ds.length ≤ 3) (h3 : ∀ x ∈ ds, isDigitCh x = true) :
    matchScan (c1 :: c2 :: c3 :: ds) = some (c1 :: c2 :: c3 :: ds) := by
  rcases ds with _ | ⟨d1, ds⟩
  · exact absurd rfl h1
  rcases ds with _ | ⟨d2, ds⟩
  · have hd1 := h3 d1 (by simp)
    exact @matchScan_of_head [c1, c2, c3, d1] ([c1, c2, c3, d1], []) (by
      simp [candidatesAt, altN, altPD, altIssue, altIssueOne, issuePrefixes,
        prefMatch, digitsGreedy, chEq, hu1, hu2, hu3, hd1])
  rcases ds with _ | ⟨d3, ds⟩
  · have hd1 := h3 d1 (by simp)
    have hd2 := h3 d2 (by simp)
    exact @matchScan_of_head [c1, c2, c3, d1, d2] ([c1, c2, c3, d1, d2], []) (by
      simp [candidatesAt, altN, altPD, altIssue, altIssueOne, issuePrefixes,
        prefMatch, digitsGreedy, chEq, hu1, hu2, hu3, hd1, hd2])
  rcases ds with _ | ⟨d4, ds⟩
  · have hd1 := h3 d1 (by simp)
    have hd2 := h3 d2 (by simp)
    have hd3 := h3 d3 (by simp)
    exact @matchScan_of_head [c1, c2, c3, d1, d2, d3]
      ([c1, c2, c3, d1, d2, d3], []) (by
      simp [candidatesAt, altN, altPD, altIssue, altIssueOne, issuePrefixes,
        prefMatch, digitsGreedy, chEq, hu1, hu2, hu3, hd1, hd2, hd3])
  · simp at h2

theorem matchScan_ewg {c1 c2 c3 : Char} {ds : List Char}
    (hu1 : c1.toUpper = 'E') (hu2 : c2.toUpper = 'W') (hu3 : c3.toUpper = 'G')
    (h1 : ds ≠ []) (h2 : ds.length ≤ 3) (h3 : ∀ x ∈ ds, isDigitCh x = true) :
    matchScan (c1 :: c2 :: c3 :: ds) = some (c1 :: c2 :: c3 :: ds) := by
  rcases ds with _ | ⟨d1, ds⟩
  · exact absurd rfl h1
  rcases ds with _ | ⟨d2, ds⟩
  · have hd1 := h3 d1 (by simp)
    exact @matchScan_of_head [c1, c2, c3, d1] ([c1, c2, c3, d1], []) (by
      simp [candidatesAt, altN, altPD, altIssue, altIssueOne, issuePrefixes,
        prefMatch, digitsGreedy, chEq, hu1, hu2, hu3, hd1])
  rcases ds with _ | ⟨d3, ds⟩
  · have hd1 := h3 d1 (by simp)
    have hd2 := h3 d2 (by simp)
    exact @matchScan_of_head [c1, c2, c3, d1, d2] ([c1, c2, c3, d1, d2], []) (by
      simp [candidatesAt, altN, altPD, altIssue, altIssueOne, issuePrefixes,
        prefMatch, digitsGreedy, chEq, hu1, hu2, hu3, hd1, hd2])
  rcases ds with _ | ⟨d4, ds⟩
  · have hd1 := h3 d1 (by simp)
    have hd2 := h3 d2 (by simp)
    have hd3 := h3 d3 (by simp)
    exact @matchScan_of_head [c1, c2, c3, d1, d2, d3]
      ([c1, c2, c3, d1, d2, d3], []) (by
      simp [candidatesAt, altN, altPD, altIssue, altIssueOne, issuePrefixes,
        prefMatch, digitsGreedy, chEq, hu1, hu2, hu3, hd1, hd2, hd3])
  · simp at h2

theorem matchScan_lwg {c1 c2 c3 : Char} {ds : List Char}
    (hu1 : c1.toUpper = 'L') (hu2 : c2.toUpper = 'W') (hu3 : c3.toUpper = 'G')
    (h1 : ds ≠ []) (h2 : ds.length ≤ 3) (h3 : ∀ x ∈ ds, isDigitCh x = true) :
    matchScan (c1 :: c2 :: c3 :: ds) = some (c1 :: c2 :: c3 :: ds) := by
  rcases ds with _ | ⟨d1, ds⟩
  · exact absurd rfl h1
  rcases ds with _ | ⟨d2, ds⟩
  · have hd1 := h3 d1 (by simp)
    exact @matchScan_of_head [c1, c2, c3, d1] ([c1, c2, c3, d1], []) (by
      simp [candidatesAt, altN, altPD, altIssue, altIssueOne, issuePrefixes,
        prefMatch, digitsGreedy, chEq, hu1, hu2, hu3, hd1])
  rcases ds with _ | ⟨d3, ds⟩
  · have hd1 := h3 d1 (by simp)
    have hd2 := h3 d2 (by simp)
    exact @matchScan_of_head [c1, c2, c3, d1, d2] ([c1, c2, c3, d1, d2], []) (by
      simp [candidatesAt, altN, altPD, altIssue, altIssueOne, issuePrefixes,
        prefMatch, digitsGreedy, chEq, hu1, hu2, hu3, hd1, hd2])
  rcases ds with _ | ⟨d4, ds⟩
  · have hd1 := h3 d1 (by simp)
    have hd2 := h3 d2 (by simp)
    have hd3 := h3 d3 (by simp)
    exact @matchScan_of_head [c1, c2, c3, d1, d2, d3]
      ([c1, c2, c3, d1, d2, d3], []) (by
      simp [candidatesAt, altN, altPD, altIssue, altIssueOne, issuePrefixes,
        prefMatch, digitsGreedy, chEq, hu1, hu2, hu3, hd1, hd2, hd3])
  · simp at h2

theorem matchScan_lewg {c1 c2 c3 c4 : Char} {ds : List Char}
    (hu1 : c1.toUpper = 'L') (hu2 : c2.toUpper = 'E') (hu3 : c3.toUpper = 'W')
    (hu4 : c4.toUpper = 'G')
    (h1 : ds ≠ []) (h2 : ds.length ≤ 3) (h3 : ∀ x ∈ ds, isDigitCh x = true) :
    matchScan (c1 :: c2 :: c3 :: c4 :: ds) = some (c1 :: c2 :: c3 :: c4 :: ds) := by
  rcases ds with _ | ⟨d1, ds⟩
  · exact absurd rfl h1
  rcases ds with _ | ⟨d2, ds⟩
  · have hd1 := h3 d1 (by simp)
    exact @matchScan_of_head [c1, c2, c3, c4, d1] ([c1, c2, c3, c4, d1], []) (by
      simp [candidatesAt, altN, altPD, altIssue, altIssueOne, issuePrefixes,
        prefMatch, digitsGreedy, chEq, hu1, hu2, hu3, hu4, hd1])
  rcases ds with _ | ⟨d3, ds⟩
  · have hd1 := h3 d1 (by simp)
    have hd2 := h3 d2 (by simp)
    exact @matchScan_of_head [c1, c2, c3, c4, d1, d2]
      ([c1, c2, c3, c4, d1, d2], []) (by
      simp [candidatesAt, altN, altPD, altIssue, altIssueOne, issuePrefixes,
        prefMatch, digitsGreedy, chEq, hu1, hu2, hu3, hu4, hd1, hd2])
  rcases ds with _ | ⟨d4, ds⟩
  · have hd1 := h3 d1 (by simp)
    have hd2 := h3 d2 (by simp)
    have hd3 := h3 d3 (by simp)
    exact @matchScan_of_head [c1, c2, c3, c4, d1, d2, d3]
      ([c1, c2, c3, c4, d1, d2, d3], []) (by
      simp [candidatesAt, altN, altPD, altIssue, altIssueOne, issuePrefixes,
        prefMatch, digitsGreedy, chEq, hu1, hu2, hu3, hu4, hd1, hd2, hd3])
  · simp at h2

theorem matchScan_fs {c1 c2 : Char} {ds : List Char}
    (hu1 : c1.toUpper = 'F') (hu2 : c2.toUpper = 'S')
    (h1 : ds ≠ []) (h2 : ds.length ≤ 3) (h3 : ∀ x ∈ ds, isDigitCh x = true) :
    matchScan (c1 :: c2 :: ds) = some (c1 :: c2 :: ds) := by
  rcases ds with _ | ⟨d1, ds⟩
  · exact absurd rfl h1
  rcases ds with _ | ⟨d2, ds⟩
  · have hd1 := h3 d1 (by simp)
    exact @matchScan_of_head [c1, c2, d1] ([c1, c2, d1], []) (by
      simp [candidatesAt, altN, altPD, altIssue, altIssueOne, issuePrefixes,
        prefMatch, digitsGreedy, chEq, hu1, hu2, hd1])
  rcases ds with _ | ⟨d3, ds⟩
  · have hd1 := h3 d1 (by simp)
    have hd2 := h3 d2 (by simp)
    exact @matchScan_of_head [c1, c2, d1, d2] ([c1, c2, d1, d2], []) (by
      simp [candidatesAt, altN, altPD, altIssue, altIssueOne, issuePrefixes,
        prefMatch, digitsGreedy, chEq, hu1, hu2, hd1, hd2])
  rcases ds with _ | ⟨d4, ds⟩
  · have hd1 := h3 d1 (by simp)
    have hd2 := h3 d2 (by simp)
    have hd3 := h3 d3 (by simp)
    exact @matchScan_of_head [c1, c2, d1, d2, d3] ([c1, c2, d1, d2, d3], []) (by
      simp [candidatesAt, altN, altPD, altIssue, altIssueOne, issuePrefixes,
        prefMatch, digitsGreedy, chEq, hu1, hu2, hd1, hd2, hd3])
  · simp at h2

theorem matchScan_tokIssue {l : List Char} (h : tokIssue l = true) :
    matchScan l = some l := by
  simp only [tokIssue, issuePrefixes, List.any_cons, List.any_nil, Bool.or_false,
    Bool.or_eq_true] at h
  rcases h with h | h | h | h | h
  · cases hpm : prefMatch ['C', 'W', 'G'] l with
    | none => rw [hpm] at h; simp at h
    | some mr =>
      obtain ⟨m, ds⟩ := mr
      rw [hpm] at h
      simp only [Bool.and_eq_true, Bool.not_eq_true', decide_eq_true_eq,
        List.all_eq_true, List.isEmpty_eq_false] at h
      obtain ⟨c1, c2, c3, _, rfl, hu1, hu2, hu3⟩ := prefMatch_shape3 hpm
      exact matchScan_cwg hu1 hu2 hu3 (by simpa using h.1.1) h.1.2 h.2
  · cases hpm : prefMatch ['E', 'W', 'G'] l with
    | none => rw [hpm] at h; simp at h
    | some mr =>
      obtain ⟨m, ds⟩ := mr
      rw [hpm] at h
      simp only [Bool.and_eq_true, Bool.not_eq_true', decide_eq_true_eq,
        List.all_eq_true, List.isEmpty_eq_false] at h
      obtain ⟨c1, c2, c3, _, rfl, hu1, hu2, hu3⟩ := prefMatch_shape3 hpm
      exact matchScan_ewg hu1 hu2 hu3 (by simpa using h.1.1) h.1.2 h.2
  · cases hpm : prefMatch ['L', 'W', 'G'] l with
    | none => rw [hpm] at h; simp at h
    | some mr =>
      obtain ⟨m, ds⟩ := mr
      rw [hpm] at h
      simp only [Bool.and_eq_true, Bool.not_eq_true', decide_eq_true_eq,
        List.all_eq_true, List.isEmpty_eq_false] at h
      obtain ⟨c1, c2, c3, _, rfl, hu1, hu2, hu3⟩ := prefMatch_shape3 hpm
      exact matchScan_lwg hu1 hu2 hu3 (by simpa using h.1.1) h.1.2 h.2
  · cases hpm : prefMatch ['L', 'E', 'W', 'G'] l with
    | none => rw [hpm] at h; simp at h
    | some mr =>
      obtain ⟨m, ds⟩ := mr
      rw [hpm] at h
      simp only [Bool.and_eq_true, Bool.not_eq_true', decide_eq_true_eq,
        List.all_eq_true, List.isEmpty_eq_false] at h
      obtain ⟨c1, c2, c3, c4, _, rfl, hu1, hu2, hu3, hu4⟩ := prefMatch_shape4 hpm
      exact matchScan_lewg hu1 hu2 hu3 hu4 (by simpa using h.1.1) h.1.2 h.2
  · cases hpm : prefMatch ['F', 'S'] l with
    | none => rw [hpm] at h; simp at h
    | some mr =>
      obtain ⟨m, ds⟩ := mr
      rw [hpm] at h
      simp only [Bool.and_eq_true, Bool.not_eq_true', decide_eq_true_eq,
        List.all_eq_true, List.isEmpty_eq_false] at h
      obtain ⟨c1, c2, _, rfl, hu1, hu2⟩ := prefMatch_shape2 hpm
      exact matchScan_fs hu1 hu2 (by simpa using h.1.1) h.1.2 h.2

theorem altN_shape {l m r : List Char} (h : altN l = some (m, r)) :
    tokN m = true := by
  match l with
  | a :: b :: c :: d :: e :: rest =>
    simp only [altN] at h
    by_cases hc : (chEq a 'N' && isDigitCh b && isDigitCh c && isDigitCh d &&
        isDigitCh e) = true
    · rw [if_pos hc] at h
      simp only [Option.some.injEq, Prod.mk.injEq] at h
      obtain ⟨rfl, rfl⟩ := h
      simpa [tokN] using hc
    · rw [if_neg hc] at h
      exact Option.noConfusion h
  | [] => simp [altN] at h
  | [_] => simp [altN] at h
  | [_, _] => simp [altN] at h
  | [_, _, _] => simp [altN] at h
  | [_, _, _, _] => simp [altN] at h

theorem altPD_shape {l m r : List Char} (h : (m, r) ∈ altPD l) :
    tokPD m = true := by
  match l with
  | a :: b :: c :: d :: e :: rest =>
    simp only [altPD] at h
    split_ifs at h with hc
    · rcases rest with _ | ⟨r0, rest⟩
      · simp only [List.mem_singleton, Prod.mk.injEq] at h
        obtain ⟨rfl, rfl⟩ := h
        simpa [tokPD] using hc
      · rcases rest with _ | ⟨f0, rest⟩
        · simp only [List.mem_singleton, Prod.mk.injEq] at h
          obtain ⟨rfl, rfl⟩ := h
          simpa [tokPD] using hc
        · have h2 : (m, r) ∈ (if (chEq r0 'R' && isDigitCh f0) = true then
              [([a, b, c, d, e, r0, f0], rest), ([a, b, c, d, e], r0 :: f0 :: rest)]
            else [([a, b, c, d, e], r0 :: f0 :: rest)]) := h
          by_cases hrf : (chEq r0 'R' && isDigitCh f0) = true
          · rw [if_pos hrf] at h2
            rcases List.mem_cons.mp h2 with heq | h3
            · simp only [Prod.mk.injEq] at heq
              obtain ⟨rfl, rfl⟩ := heq
              simp only [tokPD, Bool.and_eq_true] at hc hrf ⊢
              exact ⟨⟨hc, hrf.1⟩, hrf.2⟩
            · simp only [List.mem_singleton, Prod.mk.injEq] at h3
              obtain ⟨rfl, rfl⟩ := h3
              simpa [tokPD] using hc
          · rw [if_neg hrf] at h2
            simp only [List.mem_singleton, Prod.mk.injEq] at h2
            obtain ⟨rfl, rfl⟩ := h2
            simpa [tokPD] using hc
    · simp at h
  | [] => simp [altPD] at h
  | [_] => simp [altPD] at h
  | [_, _] => simp [altPD] at h
  | [_, _, _] => simp [altPD] at h
  | [_, _, _, _] => simp [altPD] at h

theorem altIssue_shape {l m r : List Char} (h : (m, r) ∈ altIssue l) :
    tokIssue m = true := by
  simp only [altIssue, List.mem_flatten, List.mem_map] at h
  obtain ⟨sub, ⟨pre, hpre, rfl⟩, hmem⟩ := h
  simp only [altIssueOne] at hmem
  cases hpm : prefMatch pre l with
  | none => rw [hpm] at hmem; simp at hmem
  | some mr =>
    obtain ⟨pm, rest⟩ := mr
    rw [hpm] at hmem
    simp only [List.mem_map] at hmem
    obtain ⟨⟨d, r1⟩, hd, heq⟩ := hmem
    simp only [Prod.mk.injEq] at heq
    obtain ⟨rfl, rfl⟩ := heq
    obtain ⟨hne, hlen, hdig⟩ := digitsGreedy_mem hd
    obtain ⟨_, hf⟩ := prefMatch_sound hpm
    have hcomp := prefMatch_complete d hf
    simp only [tokIssue, List.any_eq_true]
    refine ⟨pre, hpre, ?_⟩
    rw [hcomp]
    simp [hne, hlen, hdig, List.isEmpty_eq_false]

theorem candidatesAt_shape {l m r : List Char} (h : (m, r) ∈ candidatesAt l) :
    (tokN m || tokPD m || tokIssue m) = true := by
  simp only [candidatesAt, List.mem_append] at h
  rcases h with (h | h) | h
  · rcases ha : altN l with _ | ⟨mr⟩
    · rw [ha] at h
      simp at h
    · rw [ha] at h
      simp only [Option.toList_some, List.mem_singleton] at h
      rw [← h] at ha
      simp [altN_shape ha]
  · simp [altPD_shape h]
  · simp [altIssue_shape h]

theorem matchScan_shape : ∀ {l m : List Char}, matchScan l = some m →
    (tokN m || tokPD m || tokIssue m) = true := by
  intro l
  induction l with
  | nil =>
    intro m h
    rw [show matchScan [] = none from rfl] at h
    exact Option.noConfusion h
  | cons c rest ih =>
    intro m h
    rw [matchScan_cons] at h
    cases hh : (candidatesAt (c :: rest)).head? with
    | none =>
      rw [hh] at h
      exact ih h
    | some p =>
      obtain ⟨m1, r1⟩ := p
      rw [hh] at h
      simp only [Option.some.injEq] at h
      subst h
      have hmem : (m1, r1) ∈ candidatesAt (c :: rest) := by
        rcases hc : candidatesAt (c :: rest) with _ | ⟨q, t⟩
        · rw [hc] at hh
          simp at hh
        · rw [hc] at hh
          simp only [List.head?_cons, Option.some.injEq] at hh
          simp [hh]
      exact candidatesAt_shape hmem

/-- C5 amended: the pattern matcher detects exactly the identifier
families `N\d{4}`, `[PD]\d{4}(R\d)?` and `(CWG|EWG|LWG|LEWG|FS)\d{1,3}`
(one to three digits, not the claimed one to four), case-insensitively:
every exact family token is matched whole, and every reported match is a
family token.  In particular a `CWG`/`EWG`/`LWG`/`LEWG`/`FS` identifier
with four digits is not detected as such — only its 3-digit prefix
matches. -/
theorem pattern_families_detected :
    (∀ s : String, isFamilyToken s = true → matchPaper s = some s) ∧
    (∀ s m : String, matchPaper s = some m → isFamilyToken m = true) ∧
    matchPaper "CWG1234" = some "CWG123" := by
  refine ⟨?_, ?_, by decide⟩
  · intro s h
    simp only [isFamilyToken, Bool.or_eq_true] at h
    have hscan : matchScan s.data = some s.data := by
      rcases h with (h | h) | h
      · exact matchScan_tokN h
      · exact matchScan_tokPD h
      · exact matchScan_tokIssue h
    simp only [matchPaper, hscan, Option.map_some']
  · intro s m h
    simp only [matchPaper, Option.map_eq_some'] at h
    obtain ⟨ml, hml, rfl⟩ := h
    exact matchScan_shape hml

/-- Witness for C5: the full token `p1234r2` is detected whole
(case-insensitively), and the match reported inside `xCWG12y` is itself
a family token. -/
theorem pattern_families_detected_witness :
    matchPaper "p1234r2" = some "p1234r2" ∧ isFamilyToken "CWG12" = true :=
  ⟨pattern_families_detected.1 "p1234r2" (by decide),
    pattern_families_detected.2.1 "xCWG12y" "CWG12" (by decide)⟩

end Paperbot
